import Mathlib

/-!
Verification of the physics engine of the Trajectory-Monitor repository
(src/services/physicsEngine.ts) against its natural-language specification.

The engine consists of a bisection root finder (`brentq`), a closed-form
trajectory sampler (`calculateTrajectory`) and a power solver (`solvePower`).
JavaScript numbers are modelled as real numbers; the sampler's `while` loop is
modelled with an explicit fuel argument counting loop iterations, so that both
termination and non-termination of the source loop are expressible.
-/

namespace PhysicsEngine

/-- Model of the `Point` interface of src/types.ts: a pair of real coordinates. -/
structure Point where
  x : ℝ
  y : ℝ

/-- Gravitational constant `G` from `PHYSICS_CONSTANTS` in src/types.ts. -/
noncomputable def G : ℝ := 157.9629

/-- Drag coefficient `K` from `PHYSICS_CONSTANTS` in src/types.ts. -/
noncomputable def K : ℝ := 1.128

/-- Derived constant `G_K = G / K` from `PHYSICS_CONSTANTS` in src/types.ts. -/
noncomputable def G_K : ℝ := G / K

lemma K_pos : 0 < K := by norm_num [K]

lemma G_K_pos : 0 < G_K := by norm_num [G_K, G, K]

/-- Model of the `for` loop of `brentq` (src/services/physicsEngine.ts lines
20-37): each fuel unit is one loop iteration; on fuel exhaustion the midpoint
of the final bracket is returned, exactly as line 37 of the source does. -/
noncomputable def bisectLoop (f : ℝ → ℝ) (tol : ℝ) : ℕ → ℝ → ℝ → ℝ → ℝ → ℝ
  | 0, a, b, _, _ => (a + b) / 2
  | n + 1, a, b, fa, fb =>
    let c := (a + b) / 2
    let fc := f c
    if |fc| < tol ∨ (b - a) / 2 < tol then c
    else if fa * fc < 0 then bisectLoop f tol n a c fa fc
    else bisectLoop f tol n c b fc fb

/-- Model of `brentq` (src/services/physicsEngine.ts lines 9-38): bisection
root finding; `none` models the `null` returned when the root is not
bracketed. The source's default arguments `tol = 1e-5` and `maxIter = 100` are
passed explicitly at every call site. -/
noncomputable def brentq (f : ℝ → ℝ) (min max tol : ℝ) (maxIter : ℕ) : Option ℝ :=
  let a := min
  let b := max
  let fa := f a
  let fb := f b
  if fa * fb > 0 then none
  else some (bisectLoop f tol maxIter a b fa fb)

lemma brentq_of_pos (f : ℝ → ℝ) (lo hi tol : ℝ) (n : ℕ) (h : f lo * f hi > 0) :
    brentq f lo hi tol n = none := by
  simp only [brentq]
  exact if_pos h

lemma brentq_of_nonpos (f : ℝ → ℝ) (lo hi tol : ℝ) (n : ℕ) (h : ¬ f lo * f hi > 0) :
    brentq f lo hi tol n = some (bisectLoop f tol n lo hi (f lo) (f hi)) := by
  simp only [brentq]
  exact if_neg h

/-- The bisection loop always lands inside the current bracket. -/
lemma bisectLoop_mem (f : ℝ → ℝ) (tol : ℝ) :
    ∀ (n : ℕ) (a b fa fb : ℝ), a ≤ b →
      a ≤ bisectLoop f tol n a b fa fb ∧ bisectLoop f tol n a b fa fb ≤ b := by
  intro n
  induction n with
  | zero =>
    intro a b fa fb hab
    constructor
    · simp only [bisectLoop]
      linarith
    · simp only [bisectLoop]
      linarith
  | succ n ih =>
    intro a b fa fb hab
    have hac : a ≤ (a + b) / 2 := by linarith
    have hcb : (a + b) / 2 ≤ b := by linarith
    simp only [bisectLoop]
    split_ifs with h1 h2
    · exact ⟨hac, hcb⟩
    · have h3 := ih a ((a + b) / 2) fa (f ((a + b) / 2)) hac
      exact ⟨h3.1, le_trans h3.2 hcb⟩
    · have h3 := ih ((a + b) / 2) b (f ((a + b) / 2)) fb hcb
      exact ⟨le_trans hac h3.1, h3.2⟩

/-- Whatever `brentq` returns as `some` value lies inside the initial bracket. -/
lemma brentq_some_mem {f : ℝ → ℝ} {lo hi tol : ℝ} {n : ℕ} {c : ℝ} (hab : lo ≤ hi)
    (h : brentq f lo hi tol n = some c) : lo ≤ c ∧ c ≤ hi := by
  by_cases hsg : f lo * f hi > 0
  · rw [brentq_of_pos f lo hi tol n hsg] at h
    exact absurd h (by simp)
  · rw [brentq_of_nonpos f lo hi tol n hsg] at h
    have := bisectLoop_mem f tol n lo hi (f lo) (f hi) hab
    rw [Option.some_inj] at h
    rw [← h]
    exact this

/-- One sample of the closed-form kinematics model, exactly the body of the
`while` loop of `calculateTrajectory` (src/services/physicsEngine.ts lines
60-69). -/
noncomputable def trajPoint (start : Point) (vx_init vy_init v_wind t : ℝ) : Point :=
  let term1_x := (vx_init - v_wind) / K
  let term2 := 1 - Real.exp (-K * t)
  let term3_x := v_wind * t
  let x := start.x + (term1_x * term2 + term3_x)
  let term1_y := (vy_init + G_K) / K
  let term3_y := G_K * t
  let y := start.y + (term1_y * term2 - term3_y)
  ⟨x, y⟩

/-- Model of the `while (t < 20)` loop of `calculateTrajectory`
(src/services/physicsEngine.ts lines 59-77). Each fuel unit is one loop
iteration; `none` means the loop did not finish within the given fuel, so the
source loop terminates on an input exactly when some fuel yields `some`. -/
noncomputable def trajLoop (start : Point) (vx_init vy_init v_wind dt : ℝ) :
    ℕ → ℝ → Option (List Point)
  | 0, t => if t < 20 then none else some []
  | n + 1, t =>
    if t < 20 then
      let p := trajPoint start vx_init vy_init v_wind t
      if p.y < -20 ∨ p.x > 100 ∨ p.x < -20 then some [p]
      else (trajLoop start vx_init vy_init v_wind dt n (t + dt)).map (fun ps => p :: ps)
    else some []

/-- Model of `calculateTrajectory` (src/services/physicsEngine.ts lines
43-80), with the loop modelled by `trajLoop` and an explicit fuel argument
bounding the number of loop iterations. -/
noncomputable def calculateTrajectory (start : Point) (power angle wind dt : ℝ)
    (fuel : ℕ) : Option (List Point) :=
  let rad := angle * Real.pi / 180
  let v_wind := wind / K
  let vx_init := power * Real.cos rad
  let vy_init := power * Real.sin rad
  trajLoop start vx_init vy_init v_wind dt fuel 0

/-- In-bounds condition of the sampler: the negation of the break condition on
line 75 of src/services/physicsEngine.ts. -/
def inBoundsPt (p : Point) : Prop := ¬(p.y < -20 ∨ p.x > 100 ∨ p.x < -20)

/-- Pointwise predicate over a whole list of samples. -/
def allInBounds : List Point → Prop
  | [] => True
  | p :: ps => inBoundsPt p ∧ allInBounds ps

/-- Model of the inner `x_dist_func` closure of `solvePower`
(src/services/physicsEngine.ts lines 100-105). -/
noncomputable def x_dist_func (vx v_wind dist t : ℝ) : ℝ :=
  let term1 := (vx - v_wind) / K
  let term2 := 1 - Real.exp (-K * t)
  let term3 := v_wind * t
  term1 * term2 + term3 - dist

/-- Model of the `height_error_at_v` closure of `solvePower`
(src/services/physicsEngine.ts lines 95-120), sentinels `-99999` / `99999`
included. -/
noncomputable def height_error_at_v (dist height rad v_wind v : ℝ) : ℝ :=
  let vx := v * Real.cos rad
  let vy := v * Real.sin rad
  match brentq (x_dist_func vx v_wind dist) 0.01 20 1e-5 100 with
  | none => if x_dist_func vx v_wind dist 20 < 0 then -99999 else 99999
  | some t_impact =>
      ((vy + G_K) / K) * (1 - Real.exp (-K * t_impact)) - G_K * t_impact - height

/-- Model of `solvePower` (src/services/physicsEngine.ts lines 85-128): an
outer bisection over launch speed on `height_error_at_v` over the bracket
`[0.5, 200]`; `none` models the `null` result. The source's `try`/`catch` is
dead (nothing in the body throws) and is dropped. -/
noncomputable def solvePower (dist height angle wind : ℝ) : Option ℝ :=
  let rad := angle * Real.pi / 180
  let v_wind := wind / K
  brentq (height_error_at_v dist height rad v_wind) 0.5 200 1e-5 100

/-- Failure taxonomy of the specification's Power Solver (spec §7). -/
inductive SolveError where
  | Unreachable
  | DegenerateAngle

/-- The reduced vertical error function of the specification (§4.3):
`error(t) = dist·tan(angle) + C·((1 − e^(−K·t))/K − t) − height` with
`C = v_wind·tan(angle) + G_K`. -/
noncomputable def specError (dist height rad v_wind t : ℝ) : ℝ :=
  dist * Real.tan rad + (v_wind * Real.tan rad + G_K) *
    ((1 - Real.exp (-K * t)) / K - t) - height

/-- Reference solver built from the specification's words (§4.3 steps 1-6 and
§6): the analytical reduction that claim C1 asserts `solvePower` refines. It
is a second definition, deliberately written from the spec and not from the
source, to be compared against `solvePower`. -/
noncomputable def solveRequiredPower (dist height angle wind : ℝ) : Except SolveError ℝ :=
  let rad := angle * Real.pi / 180
  if |dist| < 0.1 then Except.ok 1
  else if |Real.cos rad| < 1e-9 then Except.error SolveError.DegenerateAngle
  else
    let v_wind := wind / K
    match brentq (specError dist height rad v_wind) 0.01 20 1e-5 100 with
    | none => Except.error SolveError.Unreachable
    | some tstar =>
      let vx0 := K * (dist - v_wind * tstar) / (1 - Real.exp (-K * tstar)) + v_wind
      let power := vx0 / Real.cos rad
      if power < 0 then Except.error SolveError.Unreachable else Except.ok power

lemma height_error_sentinel_neg (dist height rad v_wind v : ℝ)
    (h1 : x_dist_func (v * Real.cos rad) v_wind dist 0.01 *
          x_dist_func (v * Real.cos rad) v_wind dist 20 > 0)
    (h2 : x_dist_func (v * Real.cos rad) v_wind dist 20 < 0) :
    height_error_at_v dist height rad v_wind v = -99999 := by
  have hb := brentq_of_pos (x_dist_func (v * Real.cos rad) v_wind dist) 0.01 20 1e-5 100 h1
  simp only [height_error_at_v]
  rw [hb]
  exact if_pos h2

lemma height_error_sentinel_pos (dist height rad v_wind v : ℝ)
    (h1 : x_dist_func (v * Real.cos rad) v_wind dist 0.01 *
          x_dist_func (v * Real.cos rad) v_wind dist 20 > 0)
    (h2 : ¬ x_dist_func (v * Real.cos rad) v_wind dist 20 < 0) :
    height_error_at_v dist height rad v_wind v = 99999 := by
  have hb := brentq_of_pos (x_dist_func (v * Real.cos rad) v_wind dist) 0.01 20 1e-5 100 h1
  simp only [height_error_at_v]
  rw [hb]
  exact if_neg h2

lemma solvePower_none_of_same_sign (dist height angle wind : ℝ)
    (h : height_error_at_v dist height (angle * Real.pi / 180) (wind / K) 0.5 *
         height_error_at_v dist height (angle * Real.pi / 180) (wind / K) 200 > 0) :
    solvePower dist height angle wind = none := by
  simp only [solvePower]
  exact brentq_of_pos _ _ _ _ _ h

/-- With no wind, a horizontal launch speed of at most 300 never covers a
horizontal distance of 1000000 inside the model. -/
lemma x_dist_far_neg (vx t : ℝ) (h0 : 0 ≤ vx) (h1 : vx ≤ 300) :
    x_dist_func vx 0 1000000 t < 0 := by
  have hE := Real.exp_pos (-K * t)
  have hK := K_pos
  have hnn : 0 ≤ vx / K := div_nonneg h0 hK.le
  have hub : vx / K * (1 - Real.exp (-K * t)) ≤ vx / K := by
    nlinarith [mul_nonneg hnn hE.le]
  have h300 : vx / K ≤ 300 / K := (div_le_div_iff_of_pos_right hK).mpr h1
  have hbig : (300 : ℝ) / K < 1000000 := by norm_num [K]
  simp only [x_dist_func, sub_zero, zero_mul, add_zero]
  linarith

/-- With no wind and a positive horizontal launch speed, the horizontal
position at a positive time strictly exceeds a target distance of 0. -/
lemma x_dist_zero_pos (vx t : ℝ) (h0 : 0 < vx) (ht : 0 < t) :
    0 < x_dist_func vx 0 0 t := by
  have hK := K_pos
  have hE : Real.exp (-K * t) < 1 := by
    rw [Real.exp_lt_one_iff]
    nlinarith
  simp only [x_dist_func, sub_zero, zero_mul, add_zero]
  exact mul_pos (div_pos h0 hK) (by linarith)

/-- With a vertical launch and no wind, the horizontal error against a target
distance of 1 is the constant -1. -/
lemma x_dist_vert (t : ℝ) : x_dist_func 0 0 1 t = -1 := by
  simp [x_dist_func]

/-- At `dist = 1000000`, `angle = 0`, `wind = 0`, every outer-bracket speed
drives `height_error_at_v` into the `-99999` "too weak" sentinel. -/
lemma height_error_far (hh v : ℝ) (h0 : 0 ≤ v) (h1 : v ≤ 300) :
    height_error_at_v 1000000 hh 0 0 v = -99999 := by
  have hv : v * Real.cos 0 = v := by rw [Real.cos_zero, mul_one]
  have ha := x_dist_far_neg v 0.01 h0 h1
  have hb := x_dist_far_neg v 20 h0 h1
  apply height_error_sentinel_neg
  · rw [hv]
    exact mul_pos_of_neg_of_neg ha hb
  · rw [hv]
    exact hb

/-- With `dist = 1000000`, `angle = 0`, `wind = 0` the outer bisection of
`solvePower` sees the same `-99999` sentinel at both bracket ends and returns
`null`, whatever the height. -/
lemma solvePower_far_aux (hh : ℝ) : solvePower 1000000 hh 0 0 = none := by
  apply solvePower_none_of_same_sign
  have hrad : (0 : ℝ) * Real.pi / 180 = 0 := by norm_num
  have hvw : (0 : ℝ) / K = 0 := zero_div K
  rw [hrad, hvw, height_error_far hh 0.5 (by norm_num) (by norm_num),
    height_error_far hh 200 (by norm_num) (by norm_num)]
  norm_num

/-- At `dist = 0`, `angle = 0`, `wind = 0`, every outer-bracket speed drives
`height_error_at_v` into the `99999` "overshoot" sentinel. -/
lemma height_error_zero_dist (hh v : ℝ) (h0 : 0 < v) :
    height_error_at_v 0 hh 0 0 v = 99999 := by
  have hv : v * Real.cos 0 = v := by rw [Real.cos_zero, mul_one]
  have ha := x_dist_zero_pos v 0.01 h0 (by norm_num)
  have hb := x_dist_zero_pos v 20 h0 (by norm_num)
  apply height_error_sentinel_pos
  · rw [hv]
    exact mul_pos ha hb
  · rw [hv]
    exact not_lt.mpr hb.le

/-- With `dist = 0`, `angle = 0`, `wind = 0` the outer bisection of
`solvePower` sees the same `99999` sentinel at both bracket ends and returns
`null`, whatever the height. -/
lemma solvePower_zero_aux (hh : ℝ) : solvePower 0 hh 0 0 = none := by
  apply solvePower_none_of_same_sign
  have hrad : (0 : ℝ) * Real.pi / 180 = 0 := by norm_num
  have hvw : (0 : ℝ) / K = 0 := zero_div K
  rw [hrad, hvw, height_error_zero_dist hh 0.5 (by norm_num),
    height_error_zero_dist hh 200 (by norm_num)]
  norm_num

/-- At a vertical launch angle the horizontal speed component vanishes, so
`height_error_at_v` is the `-99999` sentinel for every speed. -/
lemma height_error_vert (hh v : ℝ) :
    height_error_at_v 1 hh (90 * Real.pi / 180) 0 v = -99999 := by
  have hrad : (90 : ℝ) * Real.pi / 180 = Real.pi / 2 := by ring
  have hv : v * Real.cos (90 * Real.pi / 180) = 0 := by
    rw [hrad, Real.cos_pi_div_two, mul_zero]
  apply height_error_sentinel_neg
  · rw [hv, x_dist_vert, x_dist_vert]
    norm_num
  · rw [hv, x_dist_vert]
    norm_num

/-- With `dist = 1`, `angle = 90`, `wind = 0` the outer bisection of
`solvePower` sees the `-99999` sentinel at both bracket ends and returns
`null`, whatever the height. -/
lemma solvePower_vert_aux (hh : ℝ) : solvePower 1 hh 90 0 = none := by
  apply solvePower_none_of_same_sign
  have hvw : (0 : ℝ) / K = 0 := zero_div K
  rw [hvw, height_error_vert hh 0.5, height_error_vert hh 200]
  norm_num

/-- The spec's reduced error function is positive at the lower bracket end for
the far-target scenario `dist = 1000000`, `height = -1000`, `angle = 0`,
`wind = 0`. -/
lemma specError_far_lo : 0 < specError 1000000 (-1000) 0 0 0.01 := by
  have hK := K_pos
  have hGK := G_K_pos
  have hE1 : Real.exp (-K * 0.01) ≤ 1 := by
    rw [Real.exp_le_one_iff]
    nlinarith
  have hA : (0 : ℝ) ≤ (1 - Real.exp (-K * 0.01)) / K := div_nonneg (by linarith) hK.le
  have hmul : G_K * (-0.01) ≤ G_K * ((1 - Real.exp (-K * 0.01)) / K - 0.01) :=
    mul_le_mul_of_nonneg_left (by linarith) hGK.le
  have hnum : (0 : ℝ) < G_K * (-0.01) + 1000 := by norm_num [G_K, G, K]
  simp only [specError, Real.tan_zero, mul_zero, zero_add, sub_neg_eq_add]
  linarith

/-- The spec's reduced error function is negative at the upper bracket end for
the same far-target scenario, so the root is bracketed. -/
lemma specError_far_hi : specError 1000000 (-1000) 0 0 20 < 0 := by
  have hK := K_pos
  have hGK := G_K_pos
  have hE := Real.exp_pos (-K * 20)
  have hdiv : (1 - Real.exp (-K * 20)) / K ≤ 1 / K :=
    (div_le_div_iff_of_pos_right hK).mpr (by linarith)
  have hmul : G_K * ((1 - Real.exp (-K * 20)) / K - 20) ≤ G_K * (1 / K - 20) :=
    mul_le_mul_of_nonneg_left (by linarith) hGK.le
  have hnum : G_K * (1 / K - 20) + 1000 < 0 := by norm_num [G_K, G, K]
  simp only [specError, Real.tan_zero, mul_zero, zero_add, sub_neg_eq_add]
  linarith

/-- The analytical reference solver of the spec succeeds, with a strictly
positive power, on the far-target scenario. -/
lemma solveRequiredPower_far_ok :
    ∃ p, 0 < p ∧ solveRequiredPower 1000000 (-1000) 0 0 = Except.ok p := by
  have hlo := specError_far_lo
  have hhi := specError_far_hi
  have hrad : (0 : ℝ) * Real.pi / 180 = 0 := by norm_num
  have hvw : (0 : ℝ) / K = 0 := zero_div K
  have hns : ¬ specError 1000000 (-1000) 0 0 0.01 * specError 1000000 (-1000) 0 0 20 > 0 :=
    not_lt.mpr (le_of_lt (mul_neg_of_pos_of_neg hlo hhi))
  have hbr := brentq_of_nonpos (specError 1000000 (-1000) 0 0) 0.01 20 1e-5 100 hns
  set t0 := bisectLoop (specError 1000000 (-1000) 0 0) 1e-5 100 0.01 20
      (specError 1000000 (-1000) 0 0 0.01) (specError 1000000 (-1000) 0 0 20) with ht0
  have hmem : 0.01 ≤ t0 ∧ t0 ≤ 20 := by
    rw [ht0]
    exact bisectLoop_mem _ _ 100 0.01 20 _ _ (by norm_num)
  have hK := K_pos
  have hE : Real.exp (-K * t0) < 1 := by
    rw [Real.exp_lt_one_iff]
    nlinarith [hmem.1]
  have hden : 0 < 1 - Real.exp (-K * t0) := by linarith
  have hVpos : 0 < (K * ((1000000 : ℝ) - 0 * t0) / (1 - Real.exp (-K * t0)) + 0) / Real.cos 0 := by
    rw [Real.cos_zero, div_one]
    have hnum : (0 : ℝ) < K * (1000000 - 0 * t0) := by nlinarith
    have := div_pos hnum hden
    linarith
  refine ⟨(K * ((1000000 : ℝ) - 0 * t0) / (1 - Real.exp (-K * t0)) + 0) / Real.cos 0,
    hVpos, ?_⟩
  simp only [solveRequiredPower]
  rw [hrad, hvw]
  rw [if_neg (by norm_num : ¬ |(1000000 : ℝ)| < 0.1)]
  rw [if_neg (by rw [Real.cos_zero]; norm_num : ¬ |Real.cos 0| < 1e-9)]
  rw [hbr]
  exact if_neg (not_lt.mpr hVpos.le)

/-- The closed-form sample at `t = 0` is exactly the start point. -/
lemma trajPoint_zero (start : Point) (vx vy vw : ℝ) : trajPoint start vx vy vw 0 = start := by
  cases start
  simp [trajPoint, Real.exp_zero]

/-- With a positive time step, the sampling loop finishes once the fuel
exceeds the number of steps left before the 20-second ceiling. -/
lemma trajLoop_total (start : Point) (vx vy vw dt : ℝ) (hdt : 0 < dt) :
    ∀ (n : ℕ) (t : ℝ), (20 - t) / dt < n →
      ∃ ps, trajLoop start vx vy vw dt n t = some ps := by
  intro n
  induction n with
  | zero =>
    intro t h
    rw [Nat.cast_zero, div_lt_iff₀ hdt, zero_mul] at h
    have ht : ¬ t < 20 := by linarith
    exact ⟨[], by simp only [trajLoop, if_neg ht]⟩
  | succ n ih =>
    intro t h
    by_cases ht : t < 20
    · by_cases hb : (trajPoint start vx vy vw t).y < -20 ∨
          (trajPoint start vx vy vw t).x > 100 ∨ (trajPoint start vx vy vw t).x < -20
      · exact ⟨[trajPoint start vx vy vw t], by simp only [trajLoop, if_pos ht, if_pos hb]⟩
      · have hstep : (20 - (t + dt)) / dt = (20 - t) / dt - 1 := by
          field_simp
          ring
        have hrec : (20 - (t + dt)) / dt < n := by
          rw [hstep]
          push_cast at h
          linarith
        obtain ⟨ps, hps⟩ := ih (t + dt) hrec
        refine ⟨trajPoint start vx vy vw t :: ps, ?_⟩
        simp only [trajLoop, if_pos ht, if_neg hb, hps, Option.map_some']
    · exact ⟨[], by simp only [trajLoop, if_neg ht]⟩

/-- Whenever the sampling loop started at `t = 0` finishes, the first sample
of its output is the start point. -/
lemma trajLoop_head (start : Point) (vx vy vw dt : ℝ) :
    ∀ (n : ℕ) (ps : List Point), trajLoop start vx vy vw dt n 0 = some ps →
      ps.head? = some start := by
  intro n ps hps
  cases n with
  | zero =>
    rw [show trajLoop start vx vy vw dt 0 0 = none by
      simp only [trajLoop, if_pos (show (0 : ℝ) < 20 by norm_num)]] at hps
    exact absurd hps (by simp)
  | succ n =>
    simp only [trajLoop, if_pos (show (0 : ℝ) < 20 by norm_num)] at hps
    split_ifs at hps with hb
    · rw [Option.some_inj] at hps
      rw [← hps, trajPoint_zero]
      rfl
    · cases hq : trajLoop start vx vy vw dt n (0 + dt) with
      | none => rw [hq] at hps; exact absurd hps (by simp)
      | some qs =>
        rw [hq, Option.map_some', Option.some_inj] at hps
        rw [← hps, trajPoint_zero]
        rfl

/-- Every sample of a finished run except possibly the last one satisfies the
in-bounds condition: the loop stops at the first violating sample. -/
lemma trajLoop_dropLast_inBounds (start : Point) (vx vy vw dt : ℝ) :
    ∀ (n : ℕ) (t : ℝ) (ps : List Point), trajLoop start vx vy vw dt n t = some ps →
      allInBounds ps.dropLast := by
  intro n
  induction n with
  | zero =>
    intro t ps hps
    simp only [trajLoop] at hps
    split_ifs at hps with ht
    rw [Option.some_inj] at hps
    rw [← hps]
    trivial
  | succ n ih =>
    intro t ps hps
    simp only [trajLoop] at hps
    split_ifs at hps with ht hb
    · rw [Option.some_inj] at hps
      rw [← hps]
      trivial
    · cases hq : trajLoop start vx vy vw dt n (t + dt) with
      | none => rw [hq] at hps; exact absurd hps (by simp)
      | some qs =>
        rw [hq, Option.map_some', Option.some_inj] at hps
        have hqs := ih (t + dt) qs hq
        rw [← hps]
        cases qs with
        | nil => trivial
        | cons q l =>
          rw [List.dropLast_cons₂]
          exact ⟨hb, hqs⟩
    · rw [Option.some_inj] at hps
      rw [← hps]
      trivial

/-- With `dt = 0` and an in-bounds start sample, the sampling loop never
finishes: time never advances, so no fuel is enough. -/
lemma trajLoop_zero_dt (start : Point) (vx vy vw : ℝ)
    (hin : inBoundsPt (trajPoint start vx vy vw 0)) :
    ∀ n : ℕ, trajLoop start vx vy vw 0 n 0 = none := by
  intro n
  induction n with
  | zero => simp only [trajLoop, if_pos (show (0 : ℝ) < 20 by norm_num)]
  | succ n ih =>
    simp only [trajLoop, if_pos (show (0 : ℝ) < 20 by norm_num), if_neg hin]
    rw [add_zero, ih]
    rfl

/-- Claim C1, counterexample. The claim states that for inputs with
`|dist| >= 0.1` and `cos(angle)` away from 0, `solvePower` equals the spec's
analytical reduction wherever that reference succeeds. At `dist = 1000000`,
`height = -1000`, `angle = 0`, `wind = 0` (in scope on both conditions) the
analytical reference `solveRequiredPower` succeeds with a positive power,
while `solvePower` returns `null`: the refinement fails. -/
theorem solvePower_not_analytical_reduction :
    (∃ p, 0 < p ∧ solveRequiredPower 1000000 (-1000) 0 0 = Except.ok p) ∧
      solvePower 1000000 (-1000) 0 0 = none :=
  ⟨solveRequiredPower_far_ok, solvePower_far_aux (-1000)⟩

/-- Claim C1, amended. `solvePower` does not implement the analytical
reduction: it runs an outer bisection over launch speed on a nested
height-error function, and at `dist = 1000000`, `angle = 0`, `wind = 0` it
returns `null` for every height, although the analytical reference succeeds
there (see the counterexample). -/
theorem solvePower_null_where_reference_succeeds (hh : ℝ) :
    solvePower 1000000 hh 0 0 = none :=
  solvePower_far_aux hh

/-- Claim C2, counterexample. The claim states that `|dist| < 0.1` yields the
fixed nominal speed `Ok(1.0)`; at `dist = 0`, `height = 0`, `angle = 0`,
`wind = 0` the solver does not return `1`. -/
theorem solvePower_short_range_not_one : solvePower 0 0 0 0 ≠ some 1 := by
  rw [solvePower_zero_aux 0]
  simp

/-- Claim C2, amended. The code has no short-range shortcut: with `dist = 0`
(so `|dist| < 0.1`), `angle = 0`, `wind = 0`, `solvePower` returns `null` for
every height, because the inner time root-find never brackets a root and the
outer bisection sees the `99999` sentinel at both bracket ends. -/
theorem solvePower_short_range_null (hh : ℝ) : solvePower 0 hh 0 0 = none :=
  solvePower_zero_aux hh

/-- Claim C3, counterexample. The claim states that a vertical launch angle
fails with a DegenerateAngle classification distinct from Unreachable. In the
code the failure value at `angle = 90`, `dist = 1` is the generic `null`, the
very same value produced for an unreachable far target, so no distinct
classification exists. -/
theorem solvePower_vertical_same_as_unreachable :
    solvePower 1 0 90 0 = none ∧ solvePower 1000000 0 0 0 = none :=
  ⟨solvePower_vert_aux 0, solvePower_far_aux 0⟩

/-- Claim C3, amended. With `|dist| >= 0.1` and a vertical launch angle the
solver does fail, but with the generic `null` used for every failure: for
`dist = 1`, `angle = 90`, `wind = 0` and every height, `solvePower` returns
`null`; the result type has no DegenerateAngle variant. -/
theorem solvePower_vertical_null (hh : ℝ) : solvePower 1 hh 90 0 = none :=
  solvePower_vert_aux hh

/-- Claim C4. For every function `f` and interval `[lo, hi]`, if
`f(lo) * f(hi) > 0` then `brentq` returns the "no root in interval" signal
`none`, not a numeric estimate. -/
theorem brentq_unbracketed_none (f : ℝ → ℝ) (lo hi tol : ℝ) (n : ℕ)
    (h : f lo * f hi > 0) : brentq f lo hi tol n = none :=
  brentq_of_pos f lo hi tol n h

/-- Claim C4, witness at the concrete function `id` on `[1, 2]`. -/
theorem brentq_unbracketed_none_witness :
    (fun x : ℝ => x) 1 * (fun x : ℝ => x) 2 > 0 ∧
      brentq (fun x : ℝ => x) 1 2 1e-5 100 = none :=
  ⟨by norm_num, brentq_unbracketed_none (fun x : ℝ => x) 1 2 1e-5 100 (by norm_num)⟩

/-- Claim C5. For every function and interval with `f(lo) * f(hi) <= 0`, the
bisection loop of `brentq` runs at most `maxIter` iterations and always
produces a numeric value, never a failure: the result is `some` value (the
midpoint at which a convergence test fired, or the midpoint of the final
bracket when the iteration budget is exhausted, as `bisectLoop` computes). -/
theorem brentq_bracketed_some (f : ℝ → ℝ) (lo hi tol : ℝ) (n : ℕ)
    (h : f lo * f hi ≤ 0) : ∃ c, brentq f lo hi tol n = some c :=
  ⟨bisectLoop f tol n lo hi (f lo) (f hi), brentq_of_nonpos f lo hi tol n (not_lt.mpr h)⟩

/-- Claim C5, witness at the concrete function `x - 3` on `[0, 10]`. -/
theorem brentq_bracketed_some_witness :
    (fun x : ℝ => x - 3) 0 * (fun x : ℝ => x - 3) 10 ≤ 0 ∧
      ∃ c, brentq (fun x : ℝ => x - 3) 0 10 1e-5 100 = some c :=
  ⟨by norm_num, brentq_bracketed_some (fun x : ℝ => x - 3) 0 10 1e-5 100 (by norm_num)⟩

/-- Claim C6, counterexample. The claim states that every finite input
produces a terminating run; with the finite input `dt = 0` and the in-bounds
start `(0, 0)` the `while` loop never advances time and never exits, so no
iteration budget completes the run. -/
theorem calculateTrajectory_diverges_at_zero_dt :
    ¬ ∃ (fuel : ℕ) (ps : List Point), calculateTrajectory ⟨0, 0⟩ 0 0 0 0 fuel = some ps := by
  rintro ⟨fuel, ps, h⟩
  have hin : inBoundsPt (trajPoint ⟨0, 0⟩ (0 * Real.cos (0 * Real.pi / 180))
      (0 * Real.sin (0 * Real.pi / 180)) (0 / K) 0) := by
    rw [trajPoint_zero]
    norm_num [inBoundsPt]
  have h0 := trajLoop_zero_dt _ _ _ _ hin fuel
  simp only [calculateTrajectory] at h
  rw [h0] at h
  exact Option.noConfusion h

/-- Claim C6, amended. For every start point, power, angle and wind, and every
positive time step `dt`, `calculateTrajectory` terminates (a fuel of
`ceil(20 / dt) + 1` loop iterations completes the run) and returns a sequence
of at least one point whose first point, the sample at `t = 0`, is the start
point. -/
theorem calculateTrajectory_total_of_pos_dt (start : Point) (power angle wind dt : ℝ)
    (hdt : 0 < dt) :
    ∃ ps, calculateTrajectory start power angle wind dt (Nat.ceil ((20 : ℝ) / dt) + 1) = some ps ∧
      ps.head? = some start := by
  have hbound : (20 - 0) / dt < ((Nat.ceil ((20 : ℝ) / dt) + 1 : ℕ) : ℝ) := by
    push_cast
    have := Nat.le_ceil ((20 : ℝ) / dt)
    rw [sub_zero]
    linarith
  obtain ⟨ps, hps⟩ := trajLoop_total start (power * Real.cos (angle * Real.pi / 180))
    (power * Real.sin (angle * Real.pi / 180)) (wind / K) dt hdt
    (Nat.ceil ((20 : ℝ) / dt) + 1) 0 hbound
  refine ⟨ps, ?_, trajLoop_head _ _ _ _ _ _ ps hps⟩
  simp only [calculateTrajectory]
  exact hps

/-- Claim C6, amended, witness at a concrete positive time step. -/
theorem calculateTrajectory_total_of_pos_dt_witness :
    (0 : ℝ) < 20 ∧
      ∃ ps, calculateTrajectory ⟨0, 0⟩ 1 45 0 20 (Nat.ceil ((20 : ℝ) / 20) + 1) = some ps ∧
        ps.head? = some ⟨0, 0⟩ :=
  ⟨by norm_num, calculateTrajectory_total_of_pos_dt ⟨0, 0⟩ 1 45 0 20 (by norm_num)⟩

/-- Claim C7. In every sequence returned by `calculateTrajectory`, every point
except possibly the last satisfies the in-bounds condition (vertical position
not below the floor, horizontal position within the configured bounds): the
terminating sample can only be the final point and nothing follows it. -/
theorem calculateTrajectory_inBounds_dropLast (start : Point) (power angle wind dt : ℝ)
    (fuel : ℕ) :
    allInBounds (((calculateTrajectory start power angle wind dt fuel).getD []).dropLast) := by
  cases h : calculateTrajectory start power angle wind dt fuel with
  | none => trivial
  | some ps =>
    exact trajLoop_dropLast_inBounds _ _ _ _ _ fuel 0 ps (by simpa [calculateTrajectory] using h)

/-- Claim C8. Whenever `solvePower` succeeds (returns a number instead of
`null`), that number is strictly positive; the default `1` used for the
`null` case is also positive, so the guarded value is always positive. -/
theorem solvePower_success_pos (dist height angle wind : ℝ) :
    0 < (solvePower dist height angle wind).getD 1 := by
  cases h : solvePower dist height angle wind with
  | none => norm_num
  | some v =>
    have h2 : brentq (height_error_at_v dist height (angle * Real.pi / 180) (wind / K))
        0.5 200 1e-5 100 = some v := by simpa [solvePower] using h
    have hmem := brentq_some_mem (by norm_num : (0.5 : ℝ) ≤ 200) h2
    simp only [Option.getD_some]
    linarith [hmem.1]

/-- Claim C9. Whenever `solvePower` returns a non-null number, that number
lies within the fixed velocity search bracket `[0.5, 200]` (the default `0.5`
used for the `null` case also lies there), and `solvePower` never returns the
legacy sentinel `-99999` at its public interface. -/
theorem solvePower_success_in_bracket (dist height angle wind : ℝ) :
    0.5 ≤ (solvePower dist height angle wind).getD 0.5 ∧
      (solvePower dist height angle wind).getD 0.5 ≤ 200 ∧
      solvePower dist height angle wind ≠ some (-99999) := by
  cases h : solvePower dist height angle wind with
  | none => refine ⟨by norm_num, by norm_num, by simp⟩
  | some v =>
    have h2 : brentq (height_error_at_v dist height (angle * Real.pi / 180) (wind / K))
        0.5 200 1e-5 100 = some v := by simpa [solvePower] using h
    have hmem := brentq_some_mem (by norm_num : (0.5 : ℝ) ≤ 200) h2
    refine ⟨by simpa using hmem.1, by simpa using hmem.2, ?_⟩
    intro heq
    rw [Option.some_inj] at heq
    rw [heq] at hmem
    linarith [hmem.1]

/-- Claim C10. For every function and every interval with `lo <= hi`, every
non-null value returned by `brentq` lies within the original interval
`[lo, hi]` (the default `lo` used for the `null` case trivially does). -/
theorem brentq_result_in_interval (f : ℝ → ℝ) (lo hi tol : ℝ) (n : ℕ) (hab : lo ≤ hi) :
    lo ≤ (brentq f lo hi tol n).getD lo ∧ (brentq f lo hi tol n).getD lo ≤ hi := by
  cases h : brentq f lo hi tol n with
  | none => exact ⟨le_refl lo, hab⟩
  | some c =>
    have hmem := brentq_some_mem hab h
    simpa using hmem

/-- Claim C10, witness at the concrete function `id` on `[0, 1]`. -/
theorem brentq_result_in_interval_witness :
    (0 : ℝ) ≤ 1 ∧
      (0 ≤ (brentq (fun x : ℝ => x) 0 1 1e-5 100).getD 0 ∧
        (brentq (fun x : ℝ => x) 0 1 1e-5 100).getD 0 ≤ 1) :=
  ⟨by norm_num, brentq_result_in_interval (fun x : ℝ => x) 0 1 1e-5 100 (by norm_num)⟩

end PhysicsEngine
